import Mathlib

/-!
Verification of `lerobot/common/datasets/video_utils.py`.

The Python module is shallowly embedded:
* a video frame is its presentation timestamp (`pts`), a key-frame flag and a
  pixel buffer of 8-bit values;
* timestamps are exact rationals (the Python floats appear only as data, and
  every claim about them concerns order, distance and range);
* the filesystem is a map from path strings to videos;
* every fallible Python step (raising an exception) is an `Except` value.

`decode_video_frames_torchvision` and `load_from_videos` are translated
statement by statement from the source.  The behaviour of
`torchvision.io.VideoReader.seek` / iteration is not part of this repository;
`seek` below is modelled from the spec and says so in its doc comment.
-/

set_option autoImplicit false

namespace VideoUtils

/-- A decoded video frame: presentation timestamp, key-frame flag and the raw
8-bit pixel buffer (`frame["pts"]` and `frame["data"]` in the source). -/
structure Frame where
  pts : ℚ
  isKey : Bool
  data : List ℕ
deriving DecidableEq

/-- A video file: its ordered frames and its stream duration (the duration is
used only by the spec-modelled `seek` bounds check). -/
structure Video where
  frames : List Frame
  duration : ℚ
deriving DecidableEq

/-- The exceptions the Python code can raise, with the payload each one
carries in the source. -/
inductive DecodeError where
  /-- `NotImplementedError(msg)`: raised for `device == "cuda"` (empty
  message) and by `load_from_videos` for its unsupported-batch case. -/
  | notImplemented (msg : String)
  /-- `ValueError(device)`: unrecognized device string. -/
  | valueError (device : String)
  /-- `torchvision.io.VideoReader` failing to open the file. -/
  | openError
  /-- Python `IndexError` (`timestamps[0]` on an empty list, `paths[0]` on an
  empty list). -/
  | indexError
  /-- Seek outside the stream bounds (spec-modelled). -/
  | seekError
  /-- `torch` reduction over an empty dimension (no frame was loaded). -/
  | reduceError
  /-- The tolerance assertion: its message interpolates
  `min_[~is_within_tol]`, the minimum distances of the violating queries. -/
  | toleranceError (violations : List ℚ)
  /-- Python `KeyError` (`item[key]` with a missing key). -/
  | keyError
  /-- Python error from treating an already-loaded tensor as a frame
  reference (`tensor["timestamp"]`). -/
  | typeError
deriving DecidableEq

/-- A stored frame reference: `{"path": ..., "timestamp": ...}`. -/
structure FrameRef where
  path : String
  timestamp : ℚ
deriving DecidableEq

/-- A value of the dataset item dictionary: a frame reference, a list of
frame references, or (after loading) a tensor or a stack of tensors.
A normalized frame is a buffer of rationals. -/
inductive ItemVal where
  | ref (f : FrameRef)
  | refs (fs : List FrameRef)
  | tensor (t : List ℚ)
  | tensors (ts : List (List ℚ))
deriving DecidableEq

/-- Index of the nearest key frame at or before `t`: the last index `i` with
`frames[i].isKey ∧ frames[i].pts ≤ t`, or `0` when there is none. -/
def seekIndexAux (t : ℚ) : List Frame → ℕ → ℕ → ℕ
  | [], _, best => best
  | f :: rest, i, best =>
      seekIndexAux t rest (i + 1) (if f.isKey = true ∧ f.pts ≤ t then i else best)

/-- See `seekIndexAux`; the scan starts at index `0` with best candidate `0`. -/
def seekIndex (frames : List Frame) (t : ℚ) : ℕ :=
  seekIndexAux t frames 0 0

/-- Modelled from the spec: `reader.seek(t)` is implemented by
torchvision/PyAV, which is not part of this repository.  Per the spec it
repositions the decode cursor to the nearest key frame at or before `t` and
fails with `SeekError` if `t` is outside the stream bounds.  The result is
the stream the subsequent iteration will yield. -/
def seek (v : Video) (t : ℚ) : Except DecodeError (List Frame) :=
  if t < 0 ∨ v.duration < t then Except.error DecodeError.seekError
  else Except.ok (v.frames.drop (seekIndex v.frames t))

/-- The scan loop of `decode_video_frames_torchvision`: pull frames, record
each one, and break after recording the first frame whose `pts` is greater
than or equal to the last requested timestamp (`if current_ts >= last_ts:
break`, placed after the two `append`s). -/
def scanLoop (last_ts : ℚ) : List Frame → List Frame
  | [] => []
  | f :: rest => if last_ts ≤ f.pts then [f] else f :: scanLoop last_ts rest

/-- `dist.min(1)` of the source for one query row: the minimum L1 distance of
`q` to the entries of `ts` together with its index.  `torch.min` documents
that with ties the index of the first minimal value is returned, hence the
head wins ties (`≤`). -/
def minArgmin (q : ℚ) : List ℚ → Option (ℚ × ℕ)
  | [] => none
  | t :: rest =>
    match minArgmin q rest with
    | none => some (|q - t|, 0)
    | some (d, i) => if |q - t| ≤ d then some (|q - t|, 0) else some (d, i + 1)

/-- `minArgmin` with a default, used only after the non-empty guard. -/
def minArgminD (q : ℚ) (ts : List ℚ) : ℚ × ℕ :=
  (minArgmin q ts).getD (0, 0)

/-- One pixel of `closest_frames.type(torch.float32) / 255`. -/
def normalizePixel (b : ℕ) : ℚ :=
  (b : ℚ) / 255

/-- `closest_frames.type(torch.float32) / 255` on one frame buffer. -/
def normalizeFrame (data : List ℕ) : List ℚ :=
  data.map normalizePixel

/-- Placeholder frame for total indexing (never reached in proved runs). -/
def defaultFrame : Frame :=
  { pts := 0, isKey := false, data := [] }

/-- The vector `min_` of the source: for each query timestamp, the minimum
L1 distance to the loaded timestamps (`dist.min(1)` values). -/
def rowMins (timestamps loaded_ts : List ℚ) : List ℚ :=
  timestamps.map (fun q => (minArgminD q loaded_ts).1)

/-- `min_[~is_within_tol]` of the source: the minimum distances of the
queries violating `min_ < tolerance_s`. -/
def violatingOf (timestamps loaded_ts : List ℚ) (tol : ℚ) : List ℚ :=
  (rowMins timestamps loaded_ts).filter (fun d => ¬ d < tol)

/-- `torch.stack([loaded_frames[idx] for idx in argmin_])` followed by
`.type(torch.float32) / 255`: gather the minimum-distance frame of each
query and normalize it. -/
def gather (loaded : List Frame) (timestamps : List ℚ) : List (List ℚ) :=
  timestamps.map (fun q =>
    normalizeFrame ((loaded.getD (minArgminD q (loaded.map Frame.pts)).2 defaultFrame).data))

/-- The distance / tolerance / gather tail of
`decode_video_frames_torchvision`, given the recorded frames `loaded`:
`torch.min` over an empty dimension raises; the tolerance assertion fails
with the violating minimum distances; otherwise the closest frames are
gathered and normalized. -/
def decodeSelect (loaded : List Frame) (timestamps : List ℚ) (tol : ℚ) :
    Except DecodeError (List (List ℚ)) :=
  match loaded with
  | [] => Except.error DecodeError.reduceError
  | _ :: _ =>
    if violatingOf timestamps (loaded.map Frame.pts) tol = [] then
      Except.ok (gather loaded timestamps)
    else Except.error (DecodeError.toleranceError (violatingOf timestamps (loaded.map Frame.pts) tol))

/-- The post-seek part of `decode_video_frames_torchvision`: scan until the
last requested timestamp (`timestamps[-1]`), then select within tolerance. -/
def decodeScan (stream : List Frame) (t0 : ℚ) (rest : List ℚ) (tol : ℚ) :
    Except DecodeError (List (List ℚ)) :=
  decodeSelect (scanLoop ((t0 :: rest).getLast (List.cons_ne_nil t0 rest)) stream)
    (t0 :: rest) tol

/-- `decode_video_frames_torchvision(video_path, timestamps, tolerance_s,
device)`.  `env` is the filesystem: the video stored at each path.  The
steps follow the source in order: backend selection by `device`, opening the
reader, reading `timestamps[0]` and `timestamps[-1]`, `seek`, the scan loop,
the distance matrix with its row-wise minimum, the tolerance assertion
(payload: the minimum distances of the violating queries), and finally the
gather and the `/ 255` normalization. -/
def decode_video_frames_torchvision (env : String → Option Video)
    (video_path : String) (timestamps : List ℚ) (tolerance_s : ℚ)
    (device : String) : Except DecodeError (List (List ℚ)) :=
  if device = "cpu" then
    match env video_path with
    | none => Except.error DecodeError.openError
    | some video =>
      match timestamps with
      | [] => Except.error DecodeError.indexError
      | t0 :: rest =>
        match seek video t0 with
        | Except.error e => Except.error e
        | Except.ok stream => decodeScan stream t0 rest tolerance_s
  else if device = "cuda" then
    Except.error (DecodeError.notImplemented "")
  else
    Except.error (DecodeError.valueError device)

/-- `item[key]` on the item dictionary (first matching key). -/
def getVal : List (String × ItemVal) → String → Option ItemVal
  | [], _ => none
  | (k, v) :: rest, key => if k = key then some v else getVal rest key

/-- `item[key] = v` on the item dictionary (replace the first matching key;
dictionary keys are unique). -/
def setVal : List (String × ItemVal) → String → ItemVal → List (String × ItemVal)
  | [], _, _ => []
  | (k, v) :: rest, key, nv =>
      if k = key then (k, nv) :: rest else (k, v) :: setVal rest key nv

/-- `data_dir / stored_path`: join a directory, kept as segments, with a
stored relative path (the stored path is kept opaque, as Python only
concatenates it). -/
def pathJoin (dir : List String) (rel : String) : String :=
  String.intercalate "/" (dir ++ [rel])

/-- One iteration of the `for key in video_frame_keys` loop of
`load_from_videos`.  The list branch reads the timestamps and paths, raises
`NotImplementedError("All video paths are expected to be the same for now.")`
when `len(set(paths)) == 1`, then decodes `data_dir / paths[0]` and stores
the stack of frames; the scalar branch decodes the single reference and
stores `frames[0]`. -/
def processKey (env : String → Option Video) (data_dir : List String)
    (tolerance_s : ℚ) (item : List (String × ItemVal)) (key : String) :
    Except DecodeError (List (String × ItemVal)) :=
  match getVal item key with
  | none => Except.error DecodeError.keyError
  | some (ItemVal.refs fs) =>
    let timestamps := fs.map FrameRef.timestamp
    let paths := fs.map FrameRef.path
    if paths.dedup.length = 1 then
      Except.error (DecodeError.notImplemented
        "All video paths are expected to be the same for now.")
    else
      match paths with
      | [] => Except.error DecodeError.indexError
      | p0 :: _ =>
        match decode_video_frames_torchvision env (pathJoin data_dir p0)
            timestamps tolerance_s "cpu" with
        | Except.error e => Except.error e
        | Except.ok frames => Except.ok (setVal item key (ItemVal.tensors frames))
  | some (ItemVal.ref f) =>
    match decode_video_frames_torchvision env (pathJoin data_dir f.path)
        [f.timestamp] tolerance_s "cpu" with
    | Except.error e => Except.error e
    | Except.ok frames => Except.ok (setVal item key (ItemVal.tensor (frames.headD [])))
  | some _ => Except.error DecodeError.typeError

/-- The `for key in video_frame_keys` loop. -/
def loadLoop (env : String → Option Video) (data_dir : List String)
    (tolerance_s : ℚ) :
    List String → List (String × ItemVal) →
    Except DecodeError (List (String × ItemVal))
  | [], item => Except.ok item
  | key :: rest, item =>
    match processKey env data_dir tolerance_s item key with
    | Except.error e => Except.error e
    | Except.ok item₁ => loadLoop env data_dir tolerance_s rest item₁

/-- `load_from_videos(item, video_frame_keys, videos_dir, tolerance_s)`.
`data_dir = videos_dir.parent` is `dropLast` on the directory segments. -/
def load_from_videos (env : String → Option Video)
    (item : List (String × ItemVal)) (video_frame_keys : List String)
    (videos_dir : List String) (tolerance_s : ℚ) :
    Except DecodeError (List (String × ItemVal)) :=
  loadLoop env videos_dir.dropLast tolerance_s video_frame_keys item

/-- The timestamps of the frames recorded by the scan loop of a decode of
`t0 :: rest` from video `v` (the `loaded_ts` list of the source), assuming
the seek succeeded. -/
def loadedTimestamps (v : Video) (t0 : ℚ) (rest : List ℚ) : List ℚ :=
  (scanLoop ((t0 :: rest).getLast (List.cons_ne_nil t0 rest))
    (v.frames.drop (seekIndex v.frames t0))).map Frame.pts

/-! ### Concrete fixtures used by witnesses and counterexamples -/

/-- A two-frame example video: frames at `pts = 0` and `pts = 1` (both key
frames) with one-pixel buffers `[0]` and `[255]`, duration `2`. -/
def videoEx : Video :=
  { frames := [⟨0, true, [0]⟩, ⟨1, true, [255]⟩], duration := 2 }

/-- An example filesystem holding `videoEx` at the resolved path
`data/videos/episode_0.mp4`. -/
def envEx : String → Option Video :=
  fun p => if p = "data/videos/episode_0.mp4" then some videoEx else none

/-- A four-frame example video of duration `3` (frames at `pts = 0, 1, 2, 3`,
all key frames). -/
def videoC4 : Video :=
  { frames := [⟨0, true, [7]⟩, ⟨1, true, [8]⟩, ⟨2, true, [9]⟩, ⟨3, true, [10]⟩],
    duration := 3 }

/-- An example filesystem holding `videoC4`. -/
def envC4 : String → Option Video :=
  fun p => if p = "data/videos/episode_1.mp4" then some videoC4 else none

/-- Placeholder frame reference for total indexing. -/
def defaultFrameRef : FrameRef :=
  { path := "", timestamp := 0 }

/-- An example dataset item with one scalar frame reference and one
two-element list of frame references pointing at two distinct stored
paths. -/
def itemW : List (String × ItemVal) :=
  [("obs", ItemVal.ref ⟨"videos/episode_0.mp4", 1⟩),
   ("cam", ItemVal.refs [⟨"videos/episode_0.mp4", 0⟩, ⟨"videos/episode_1.mp4", 1⟩])]

/-- The loaded form of `itemW` under `envEx` with `videos_dir =
["data", "videos"]` and tolerance 1. -/
def itemW' : List (String × ItemVal) :=
  [("obs", ItemVal.tensor [1]),
   ("cam", ItemVal.tensors [[0], [1]])]

/-- A one-frame example video of duration `20` whose single frame sits at
`pts = 1`, far from the query used in the C3 counterexample. -/
def videoC3 : Video :=
  { frames := [⟨1, true, [5]⟩], duration := 20 }

/-- An example filesystem holding `videoC3`. -/
def envC3 : String → Option Video :=
  fun p => if p = "data/videos/episode_2.mp4" then some videoC3 else none

/-! ### Helper lemmas -/

theorem abs_sub_ite (a b : ℚ) : |a - b| = if a ≤ b then b - a else a - b := by
  by_cases h : a ≤ b
  · rw [if_pos h, abs_sub_comm, abs_of_nonneg (by linarith)]
  · rw [if_neg h, abs_of_nonneg (by linarith)]

theorem scanLoop_ne_nil (l : ℚ) (fs : List Frame) (h : fs ≠ []) :
    scanLoop l fs ≠ [] := by
  cases fs with
  | nil => exact absurd rfl h
  | cons f rest =>
    rw [scanLoop]
    split <;> simp

theorem seekIndexAux_cases (t : ℚ) :
    ∀ (l : List Frame) (i best : ℕ),
      seekIndexAux t l i best = best ∨ seekIndexAux t l i best < i + l.length := by
  intro l
  induction l with
  | nil => intro i best; left; rfl
  | cons f rest ih =>
    intro i best
    rw [seekIndexAux]
    rcases ih (i + 1) (if f.isKey = true ∧ f.pts ≤ t then i else best) with h | h
    · rw [h]
      by_cases hc : f.isKey = true ∧ f.pts ≤ t
      · rw [if_pos hc]; right; simp only [List.length_cons]; omega
      · rw [if_neg hc]; left; rfl
    · right; simp only [List.length_cons]; omega

theorem seekIndex_lt (frames : List Frame) (t : ℚ) (h : frames ≠ []) :
    seekIndex frames t < frames.length := by
  have hpos : 0 < frames.length := List.length_pos.mpr h
  rcases seekIndexAux_cases t frames 0 0 with h0 | hlt
  · rw [seekIndex, h0]; exact hpos
  · rw [seekIndex]; omega

theorem drop_seekIndex_ne_nil (frames : List Frame) (t : ℚ) (h : frames ≠ []) :
    frames.drop (seekIndex frames t) ≠ [] := by
  intro hc
  have := List.drop_eq_nil_iff.mp hc
  have := seekIndex_lt frames t h
  omega

theorem minArgmin_spec (q : ℚ) (ts : List ℚ) (h : ts ≠ []) :
    ∃ d i, minArgmin q ts = some (d, i) ∧ i < ts.length ∧ d = |q - ts.getD i 0| ∧
      (∀ j < ts.length, d ≤ |q - ts.getD j 0|) ∧
      (∀ j < i, d < |q - ts.getD j 0|) := by
  induction ts with
  | nil => exact absurd rfl h
  | cons t rest ih =>
    cases rest with
    | nil =>
      refine ⟨|q - t|, 0, rfl, Nat.zero_lt_one, rfl, ?_, ?_⟩
      · intro j hj
        have hj0 : j = 0 := by
          simpa [Nat.lt_one_iff] using hj
        subst hj0
        exact le_refl _
      · intro j hj; omega
    | cons r rs =>
      obtain ⟨d, i, hmm, hi, hd, hmin, hstrict⟩ := ih (by simp)
      by_cases hle : |q - t| ≤ d
      · refine ⟨|q - t|, 0, ?_, ?_, rfl, ?_, ?_⟩
        · rw [minArgmin, hmm]
          show (if |q - t| ≤ d then some (|q - t|, 0) else some (d, i + 1)) = some (|q - t|, 0)
          rw [if_pos hle]
        · simp
        · intro j hj
          cases j with
          | zero => exact le_refl _
          | succ k =>
            rw [List.getD_cons_succ]
            exact hle.trans (hmin k (by simpa using hj))
        · intro j hj; omega
      · have hlt : d < |q - t| := lt_of_not_le hle
        refine ⟨d, i + 1, ?_, ?_, ?_, ?_, ?_⟩
        · rw [minArgmin, hmm]
          show (if |q - t| ≤ d then some (|q - t|, 0) else some (d, i + 1)) = some (d, i + 1)
          rw [if_neg hle]
        · simpa using hi
        · rw [List.getD_cons_succ]; exact hd
        · intro j hj
          cases j with
          | zero => exact le_of_lt hlt
          | succ k =>
            rw [List.getD_cons_succ]
            exact hmin k (by simpa using hj)
        · intro j hj
          cases j with
          | zero => exact hlt
          | succ k =>
            rw [List.getD_cons_succ]
            exact hstrict k (by omega)

theorem minArgmin_ne_none (q : ℚ) (ts : List ℚ) (h : ts ≠ []) :
    minArgmin q ts ≠ none := by
  obtain ⟨d, i, hmm, -⟩ := minArgmin_spec q ts h
  rw [hmm]; simp

theorem decodeSelect_ok_length (loaded : List Frame) (ts : List ℚ) (tol : ℚ)
    (out : List (List ℚ)) (h : decodeSelect loaded ts tol = Except.ok out) :
    out.length = ts.length := by
  cases loaded with
  | nil => simp [decodeSelect] at h
  | cons f rest =>
    rw [decodeSelect] at h
    split at h
    · cases h
      simp [gather]
    · cases h

theorem decodeSelect_dichotomy (loaded : List Frame) (ts : List ℚ) (tol : ℚ)
    (hne : loaded ≠ []) :
    (violatingOf ts (loaded.map Frame.pts) tol = [] ∧
      decodeSelect loaded ts tol = Except.ok (gather loaded ts)) ∨
    (violatingOf ts (loaded.map Frame.pts) tol ≠ [] ∧
      decodeSelect loaded ts tol =
        Except.error (DecodeError.toleranceError (violatingOf ts (loaded.map Frame.pts) tol))) := by
  obtain ⟨f, L, rfl⟩ := List.exists_cons_of_ne_nil hne
  by_cases hv : violatingOf ts ((f :: L).map Frame.pts) tol = []
  · left
    refine ⟨hv, ?_⟩
    rw [decodeSelect, if_pos hv]
  · right
    refine ⟨hv, ?_⟩
    rw [decodeSelect, if_neg hv]

theorem decode_cpu_open_fail (env : String → Option Video) (path : String)
    (ts : List ℚ) (tol : ℚ) (henv : env path = none) :
    decode_video_frames_torchvision env path ts tol "cpu" =
      Except.error DecodeError.openError := by
  rw [decode_video_frames_torchvision, if_pos rfl, henv]

theorem decode_cpu_nil (env : String → Option Video) (path : String)
    (v : Video) (tol : ℚ) (henv : env path = some v) :
    decode_video_frames_torchvision env path [] tol "cpu" =
      Except.error DecodeError.indexError := by
  rw [decode_video_frames_torchvision, if_pos rfl, henv]

theorem decode_cpu_seek_err (env : String → Option Video) (path : String)
    (v : Video) (t0 : ℚ) (rest : List ℚ) (tol : ℚ) (e : DecodeError)
    (henv : env path = some v) (hseek : seek v t0 = Except.error e) :
    decode_video_frames_torchvision env path (t0 :: rest) tol "cpu" =
      Except.error e := by
  rw [decode_video_frames_torchvision, if_pos rfl, henv]
  show (match seek v t0 with
    | Except.error e => Except.error e
    | Except.ok stream => decodeScan stream t0 rest tol) = Except.error e
  rw [hseek]

theorem decode_cpu_seek_ok (env : String → Option Video) (path : String)
    (v : Video) (t0 : ℚ) (rest : List ℚ) (tol : ℚ) (stream : List Frame)
    (henv : env path = some v) (hseek : seek v t0 = Except.ok stream) :
    decode_video_frames_torchvision env path (t0 :: rest) tol "cpu" =
      decodeScan stream t0 rest tol := by
  rw [decode_video_frames_torchvision, if_pos rfl, henv]
  show (match seek v t0 with
    | Except.error e => Except.error e
    | Except.ok stream => decodeScan stream t0 rest tol) = decodeScan stream t0 rest tol
  rw [hseek]

theorem decode_cuda (env : String → Option Video) (path : String)
    (ts : List ℚ) (tol : ℚ) :
    decode_video_frames_torchvision env path ts tol "cuda" =
      Except.error (DecodeError.notImplemented "") := by
  rw [decode_video_frames_torchvision, if_neg (by decide), if_pos rfl]

theorem decode_other_device (env : String → Option Video) (path : String)
    (ts : List ℚ) (tol : ℚ) (device : String)
    (h1 : device ≠ "cpu") (h2 : device ≠ "cuda") :
    decode_video_frames_torchvision env path ts tol device =
      Except.error (DecodeError.valueError device) := by
  rw [decode_video_frames_torchvision, if_neg h1, if_neg h2]

theorem decode_ok_length (env : String → Option Video) (path : String)
    (ts : List ℚ) (tol : ℚ) (device : String) (out : List (List ℚ))
    (h : decode_video_frames_torchvision env path ts tol device = Except.ok out) :
    out.length = ts.length := by
  by_cases hc : device = "cpu"
  · subst hc
    cases henv : env path with
    | none => rw [decode_cpu_open_fail env path ts tol henv] at h; cases h
    | some v =>
      cases ts with
      | nil => rw [decode_cpu_nil env path v tol henv] at h; cases h
      | cons t0 rest =>
        cases hseek : seek v t0 with
        | error e =>
          rw [decode_cpu_seek_err env path v t0 rest tol e henv hseek] at h
          cases h
        | ok stream =>
          rw [decode_cpu_seek_ok env path v t0 rest tol stream henv hseek, decodeScan] at h
          exact decodeSelect_ok_length _ _ _ _ h
  · by_cases hcu : device = "cuda"
    · subst hcu
      rw [decode_cuda env path ts tol] at h; cases h
    · rw [decode_other_device env path ts tol device hc hcu] at h; cases h

theorem getVal_setVal_self (item : List (String × ItemVal)) (key : String)
    (nv w : ItemVal) (h : getVal item key = some w) :
    getVal (setVal item key nv) key = some nv := by
  induction item with
  | nil => simp [getVal] at h
  | cons kv rest ih =>
    obtain ⟨k, u⟩ := kv
    by_cases hk : k = key
    · rw [setVal, if_pos hk, getVal, if_pos hk]
    · rw [getVal, if_neg hk] at h
      rw [setVal, if_neg hk, getVal, if_neg hk]
      exact ih h

theorem getVal_setVal_other (item : List (String × ItemVal)) (key j : String)
    (nv : ItemVal) (hj : j ≠ key) :
    getVal (setVal item key nv) j = getVal item j := by
  induction item with
  | nil => rfl
  | cons kv rest ih =>
    obtain ⟨k, u⟩ := kv
    by_cases hk : k = key
    · have hkj : ¬ k = j := by
        rw [hk]
        exact fun hc => hj hc.symm
      rw [setVal, if_pos hk, getVal, if_neg hkj, getVal, if_neg hkj]
    · rw [setVal, if_neg hk]
      by_cases hkj : k = j
      · rw [getVal, if_pos hkj, getVal, if_pos hkj]
      · rw [getVal, if_neg hkj, getVal, if_neg hkj]
        exact ih

theorem processKey_ok_cases (env : String → Option Video) (dd : List String)
    (tol : ℚ) (item : List (String × ItemVal)) (key : String)
    (item₁ : List (String × ItemVal))
    (h : processKey env dd tol item key = Except.ok item₁) :
    (∃ f out, getVal item key = some (ItemVal.ref f) ∧
      decode_video_frames_torchvision env (pathJoin dd f.path) [f.timestamp] tol "cpu" =
        Except.ok out ∧
      item₁ = setVal item key (ItemVal.tensor (out.headD []))) ∨
    (∃ fs out, getVal item key = some (ItemVal.refs fs) ∧
      (fs.map FrameRef.path).dedup.length ≠ 1 ∧
      decode_video_frames_torchvision env (pathJoin dd ((fs.headD defaultFrameRef).path))
        (fs.map FrameRef.timestamp) tol "cpu" = Except.ok out ∧
      item₁ = setVal item key (ItemVal.tensors out)) := by
  rw [processKey] at h
  split at h
  · cases h
  · next fs heq =>
    dsimp only at h
    split at h
    · cases h
    · next hne =>
      split at h
      · cases h
      · next p0 ps hpaths =>
        split at h
        · cases h
        · next frames hdec =>
          cases h
          right
          cases fs with
          | nil => cases hpaths
          | cons f0 fs' =>
            have hp0 : f0.path = p0 := by
              rw [List.map_cons] at hpaths
              exact (List.cons.injEq _ _ _ _ ▸ hpaths).1
            refine ⟨f0 :: fs', frames, heq, hne, ?_, rfl⟩
            rw [List.headD_cons, hp0]
            exact hdec
  · next f heq =>
    split at h
    · cases h
    · next frames hdec =>
      cases h
      left
      exact ⟨f, frames, heq, hdec, rfl⟩
  · cases h
theorem processKey_ok_other (env : String → Option Video) (dd : List String)
    (tol : ℚ) (item : List (String × ItemVal)) (key : String)
    (item₁ : List (String × ItemVal)) (j : String)
    (h : processKey env dd tol item key = Except.ok item₁) (hj : j ≠ key) :
    getVal item₁ j = getVal item j := by
  rcases processKey_ok_cases env dd tol item key item₁ h with
    ⟨f, out, -, -, rfl⟩ | ⟨fs, out, -, -, -, rfl⟩ <;>
    exact getVal_setVal_other item key j _ hj

theorem processKey_loaded_err (env : String → Option Video) (dd : List String)
    (tol : ℚ) (item : List (String × ItemVal)) (key : String)
    (h : (∃ t, getVal item key = some (ItemVal.tensor t)) ∨
      (∃ ts, getVal item key = some (ItemVal.tensors ts))) :
    processKey env dd tol item key = Except.error DecodeError.typeError := by
  rcases h with ⟨t, hv⟩ | ⟨ts, hv⟩ <;> rw [processKey, hv]

theorem loadLoop_cons_err (env : String → Option Video) (dd : List String)
    (tol : ℚ) (key : String) (ks : List String) (item : List (String × ItemVal))
    (e : DecodeError) (hp : processKey env dd tol item key = Except.error e) :
    loadLoop env dd tol (key :: ks) item = Except.error e := by
  rw [loadLoop, hp]

theorem loadLoop_cons_ok (env : String → Option Video) (dd : List String)
    (tol : ℚ) (key : String) (ks : List String)
    (item item₁ : List (String × ItemVal))
    (hp : processKey env dd tol item key = Except.ok item₁) :
    loadLoop env dd tol (key :: ks) item = loadLoop env dd tol ks item₁ := by
  rw [loadLoop, hp]

theorem loadLoop_ok_not_mem (env : String → Option Video) (dd : List String) (tol : ℚ) :
    ∀ (ks : List String) (item item' : List (String × ItemVal)) (j : String),
      loadLoop env dd tol ks item = Except.ok item' → j ∉ ks →
      getVal item' j = getVal item j := by
  intro ks
  induction ks with
  | nil =>
    intro item item' j h hj
    cases h
    rfl
  | cons k ks ih =>
    intro item item' j h hj
    cases hp : processKey env dd tol item k with
    | error e =>
      rw [loadLoop_cons_err env dd tol k ks item e hp] at h
      cases h
    | ok item₁ =>
      rw [loadLoop_cons_ok env dd tol k ks item item₁ hp] at h
      have hj1 : j ∉ ks := fun hc => hj (List.mem_cons_of_mem _ hc)
      have hjk : j ≠ k := fun hc => hj (by rw [hc]; exact List.mem_cons_self _ _)
      rw [ih item₁ item' j h hj1,
        processKey_ok_other env dd tol item k item₁ j hp hjk]

theorem loadLoop_loaded_mem_fail (env : String → Option Video) (dd : List String) (tol : ℚ) :
    ∀ (ks : List String) (item item' : List (String × ItemVal)) (key : String),
      ((∃ t, getVal item key = some (ItemVal.tensor t)) ∨
        (∃ ts, getVal item key = some (ItemVal.tensors ts))) →
      key ∈ ks → loadLoop env dd tol ks item ≠ Except.ok item' := by
  intro ks
  induction ks with
  | nil =>
    intro item item' key hload hmem
    exact absurd hmem (List.not_mem_nil key)
  | cons k ks ih =>
    intro item item' key hload hmem h
    by_cases hk : key = k
    · subst hk
      rw [loadLoop_cons_err env dd tol key ks item _
        (processKey_loaded_err env dd tol item key hload)] at h
      cases h
    · cases hp : processKey env dd tol item k with
      | error e =>
        rw [loadLoop_cons_err env dd tol k ks item e hp] at h
        cases h
      | ok item₁ =>
        rw [loadLoop_cons_ok env dd tol k ks item item₁ hp] at h
        have hmem' : key ∈ ks := by
          rcases List.mem_cons.mp hmem with hc | hc
          · exact absurd hc hk
          · exact hc
        have hload₁ : (∃ t, getVal item₁ key = some (ItemVal.tensor t)) ∨
            (∃ ts, getVal item₁ key = some (ItemVal.tensors ts)) := by
          rw [processKey_ok_other env dd tol item k item₁ key hp hk]
          exact hload
        exact ih item₁ item' key hload₁ hmem' h
theorem loadLoop_ok_spec (env : String → Option Video) (dd : List String) (tol : ℚ) :
    ∀ (ks : List String) (item item' : List (String × ItemVal)) (key : String),
      loadLoop env dd tol ks item = Except.ok item' → key ∈ ks →
      (∀ f, getVal item key = some (ItemVal.ref f) →
        ∃ out, decode_video_frames_torchvision env (pathJoin dd f.path)
            [f.timestamp] tol "cpu" = Except.ok out ∧
          out.length = 1 ∧ getVal item' key = some (ItemVal.tensor (out.headD []))) ∧
      (∀ fs, getVal item key = some (ItemVal.refs fs) →
        ∃ out, decode_video_frames_torchvision env
            (pathJoin dd ((fs.headD defaultFrameRef).path))
            (fs.map FrameRef.timestamp) tol "cpu" = Except.ok out ∧
          out.length = fs.length ∧ getVal item' key = some (ItemVal.tensors out)) := by
  intro ks
  induction ks with
  | nil =>
    intro item item' key h hk
    exact absurd hk (List.not_mem_nil key)
  | cons k ks ih =>
    intro item item' key h hk
    cases hp : processKey env dd tol item k with
    | error e =>
      rw [loadLoop_cons_err env dd tol k ks item e hp] at h
      cases h
    | ok item₁ =>
      rw [loadLoop_cons_ok env dd tol k ks item item₁ hp] at h
      by_cases hkey : key = k
      · subst hkey
        rcases processKey_ok_cases env dd tol item key item₁ hp with
          ⟨f, out, hval, hdec, hitem₁⟩ | ⟨fs, out, hval, hne, hdec, hitem₁⟩
        · have hv₁ : getVal item₁ key = some (ItemVal.tensor (out.headD [])) := by
            rw [hitem₁]
            exact getVal_setVal_self item key _ _ hval
          have hmemks : key ∉ ks := by
            intro hc
            exact loadLoop_loaded_mem_fail env dd tol ks item₁ item' key
              (Or.inl ⟨_, hv₁⟩) hc h
          have hfinal : getVal item' key = some (ItemVal.tensor (out.headD [])) := by
            rw [loadLoop_ok_not_mem env dd tol ks item₁ item' key h hmemks]
            exact hv₁
          constructor
          · intro f' hf'
            rw [hval] at hf'
            have hff : f = f' := by
              injection hf' with hsome
              injection hsome
            rw [← hff]
            refine ⟨out, hdec, ?_, hfinal⟩
            rw [decode_ok_length env (pathJoin dd f.path) [f.timestamp] tol "cpu" out hdec]
            rfl
          · intro fs' hfs'
            rw [hval] at hfs'
            simp at hfs'
        · have hv₁ : getVal item₁ key = some (ItemVal.tensors out) := by
            rw [hitem₁]
            exact getVal_setVal_self item key _ _ hval
          have hmemks : key ∉ ks := by
            intro hc
            exact loadLoop_loaded_mem_fail env dd tol ks item₁ item' key
              (Or.inr ⟨_, hv₁⟩) hc h
          have hfinal : getVal item' key = some (ItemVal.tensors out) := by
            rw [loadLoop_ok_not_mem env dd tol ks item₁ item' key h hmemks]
            exact hv₁
          constructor
          · intro f' hf'
            rw [hval] at hf'
            simp at hf'
          · intro fs' hfs'
            rw [hval] at hfs'
            have hff : fs = fs' := by
              injection hfs' with hsome
              injection hsome
            rw [← hff]
            refine ⟨out, hdec, ?_, hfinal⟩
            rw [decode_ok_length env (pathJoin dd ((fs.headD defaultFrameRef).path))
              (fs.map FrameRef.timestamp) tol "cpu" out hdec]
            exact List.length_map fs FrameRef.timestamp
      · have hkeep : getVal item₁ key = getVal item key :=
          processKey_ok_other env dd tol item k item₁ key hp hkey
        have hk' : key ∈ ks := by
          rcases List.mem_cons.mp hk with hc | hc
          · exact absurd hc hkey
          · exact hc
        have hres := ih item₁ item' key h hk'
        rw [hkeep] at hres
        exact hres

/-! ### Claim theorems -/

/-- C2 (counterexample): for the empty list of requested timestamps,
`decode_video_frames_torchvision` does not return an empty result as a
no-op; it raises `IndexError` at `first_ts = timestamps[0]` (the example
filesystem does hold the video, so the failure is not an open failure). -/
theorem claim_C2_counterexample :
    decode_video_frames_torchvision envEx "data/videos/episode_0.mp4" [] 1 "cpu" =
        Except.error DecodeError.indexError ∧
      decode_video_frames_torchvision envEx "data/videos/episode_0.mp4" [] 1 "cpu" ≠
        Except.ok [] := by
  constructor
  · rfl
  · intro hc
    cases hc

/-- C2 (amended): for the empty list of requested timestamps,
`decode_video_frames_torchvision` raises an index error when reading
`timestamps[0]`; it does not return an empty result. -/
theorem claim_C2_empty_raises_index_error (env : String → Option Video)
    (path : String) (v : Video) (tol : ℚ) (henv : env path = some v) :
    decode_video_frames_torchvision env path [] tol "cpu" =
      Except.error DecodeError.indexError :=
  decode_cpu_nil env path v tol henv

/-- Witness for C2: the amended theorem applied to the example video. -/
theorem claim_C2_witness :
    envEx "data/videos/episode_0.mp4" = some videoEx ∧
      decode_video_frames_torchvision envEx "data/videos/episode_0.mp4" [] 1 "cpu" =
        Except.error DecodeError.indexError :=
  ⟨by decide,
    claim_C2_empty_raises_index_error envEx "data/videos/episode_0.mp4" videoEx 1 (by decide)⟩

/-- C3 (counterexample): the tolerance-violation error does not report the
violating timestamps.  Requesting timestamp `10` from a video whose only
loadable frame sits at `pts = 1` (tolerance `1`) fails with the
tolerance error whose payload is `[9]` — the minimum distance of the
violating query — and the violating timestamp `10` appears nowhere in the
payload. -/
theorem claim_C3_counterexample :
    decode_video_frames_torchvision envC3 "data/videos/episode_2.mp4" [10] 1 "cpu" =
        Except.error (DecodeError.toleranceError [9]) ∧
      (10 : ℚ) ∉ ([9] : List ℚ) := by
  constructor
  · norm_num [decode_video_frames_torchvision, envC3, videoC3, seek, seekIndex, seekIndexAux,
      scanLoop, decodeScan, decodeSelect, violatingOf, rowMins, minArgminD, minArgmin, gather,
      normalizeFrame, normalizePixel, defaultFrame, abs_sub_ite, List.getLast, List.filter]
  · norm_num

/-- C3 (amended): for every non-empty request list whose first timestamp is
within the stream bounds of a non-empty video,
`decode_video_frames_torchvision` either returns exactly one frame per
request, each request having some loaded timestamp at minimum L1 distance
strictly below `tolerance_s`, or fails the whole batch with the
tolerance-violation error whose payload is exactly the minimum distances of
the violating requests (the timestamps themselves are not part of the
payload); it never returns a partial result. -/
theorem claim_C3_all_or_nothing (env : String → Option Video) (path : String)
    (v : Video) (t0 : ℚ) (rest : List ℚ) (tol : ℚ)
    (henv : env path = some v) (hfr : v.frames ≠ [])
    (hlo : 0 ≤ t0) (hhi : t0 ≤ v.duration) :
    (∃ out, decode_video_frames_torchvision env path (t0 :: rest) tol "cpu" = Except.ok out ∧
      out.length = (t0 :: rest).length ∧
      ∀ q ∈ t0 :: rest, ∃ t ∈ loadedTimestamps v t0 rest,
        (∀ u ∈ loadedTimestamps v t0 rest, |q - t| ≤ |q - u|) ∧ |q - t| < tol) ∨
    (decode_video_frames_torchvision env path (t0 :: rest) tol "cpu" =
        Except.error (DecodeError.toleranceError
          (violatingOf (t0 :: rest) (loadedTimestamps v t0 rest) tol)) ∧
      violatingOf (t0 :: rest) (loadedTimestamps v t0 rest) tol ≠ [] ∧
      ∀ d ∈ violatingOf (t0 :: rest) (loadedTimestamps v t0 rest) tol, ¬ d < tol) := by
  have hseek : seek v t0 = Except.ok (v.frames.drop (seekIndex v.frames t0)) := by
    rw [seek, if_neg]
    push_neg
    exact ⟨hlo, hhi⟩
  have hdec := decode_cpu_seek_ok env path v t0 rest tol _ henv hseek
  rw [decodeScan] at hdec
  have hLne : scanLoop ((t0 :: rest).getLast (List.cons_ne_nil t0 rest))
      (v.frames.drop (seekIndex v.frames t0)) ≠ [] :=
    scanLoop_ne_nil _ _ (drop_seekIndex_ne_nil v.frames t0 hfr)
  have hltsne : loadedTimestamps v t0 rest ≠ [] := by
    rw [loadedTimestamps]
    intro hc
    exact hLne (List.map_eq_nil_iff.mp hc)
  rcases decodeSelect_dichotomy _ (t0 :: rest) tol hLne with ⟨hv, hsel⟩ | ⟨hv, hsel⟩
  · left
    refine ⟨gather _ (t0 :: rest), by rw [hdec, hsel], by simp [gather], ?_⟩

    have hall : ∀ d ∈ rowMins (t0 :: rest) (loadedTimestamps v t0 rest), d < tol := by
      have := List.filter_eq_nil_iff.mp hv
      intro d hd
      simpa using this d hd
    intro q hq
    obtain ⟨d, i, hsome, hi, hd, hmin, -⟩ :=
      minArgmin_spec q (loadedTimestamps v t0 rest) hltsne
    have hdq : minArgminD q (loadedTimestamps v t0 rest) = (d, i) := by
      rw [minArgminD, hsome]
      rfl
    have hdtol : d < tol := by
      have hmem : (minArgminD q (loadedTimestamps v t0 rest)).1 ∈
          rowMins (t0 :: rest) (loadedTimestamps v t0 rest) :=
        List.mem_map_of_mem _ hq
      rw [hdq] at hmem
      exact hall d hmem
    refine ⟨(loadedTimestamps v t0 rest).getD i 0, ?_, ?_, ?_⟩
    · rw [List.getD_eq_getElem _ _ hi]
      exact List.getElem_mem hi
    · intro u hu
      obtain ⟨j, hj, rfl⟩ := List.mem_iff_getElem.mp hu
      rw [← hd, ← List.getD_eq_getElem _ (0 : ℚ) hj]
      exact hmin j hj
    · rw [← hd]
      exact hdtol
  · right
    refine ⟨by rw [hdec, hsel]; rfl, hv, ?_⟩
    intro d hd
    have := (List.mem_filter.mp hd).2
    simpa using this

/-- C4 (counterexample): an out-of-bounds requested timestamp does not, in
general, make the operation fail with `SeekError`.  With stream length `3`
and requests `[0, 4]` (the second beyond the stream bounds), the first
timestamp seeks fine and the call fails with the tolerance error after
scanning, not with `SeekError`. -/
theorem claim_C4_counterexample :
    decode_video_frames_torchvision envC4 "data/videos/episode_1.mp4"
        [0, 4] 1 "cpu" =
        Except.error (DecodeError.toleranceError [1]) ∧
      decode_video_frames_torchvision envC4 "data/videos/episode_1.mp4"
        [0, 4] 1 "cpu" ≠ Except.error DecodeError.seekError := by
  have h1 : decode_video_frames_torchvision envC4 "data/videos/episode_1.mp4"
      [0, 4] 1 "cpu" = Except.error (DecodeError.toleranceError [1]) := by
    norm_num [decode_video_frames_torchvision, envC4, videoC4, seek, seekIndex, seekIndexAux,
      scanLoop, decodeScan, decodeSelect, violatingOf, rowMins, minArgminD, minArgmin, gather,
      normalizeFrame, normalizePixel, defaultFrame, abs_sub_ite, List.getLast, List.filter]
  refine ⟨h1, ?_⟩
  rw [h1]
  simp

/-- C4 (amended): if the first requested timestamp is outside the stream
bounds, the operation fails with `SeekError` at the seek step (the seek is
issued only for `timestamps[0]`; a later out-of-bounds timestamp is not
seen by `seek` and can only surface as a tolerance violation after
scanning). -/
theorem claim_C4_first_out_of_bounds_seek_error (env : String → Option Video)
    (path : String) (v : Video) (t0 : ℚ) (rest : List ℚ) (tol : ℚ)
    (henv : env path = some v) (hout : t0 < 0 ∨ v.duration < t0) :
    decode_video_frames_torchvision env path (t0 :: rest) tol "cpu" =
      Except.error DecodeError.seekError := by
  have hseek : seek v t0 = Except.error DecodeError.seekError := by
    rw [seek, if_pos hout]
  exact decode_cpu_seek_err env path v t0 rest tol _ henv hseek

/-- Witness for C4: requesting `4` first from the duration-3 video fails
with `SeekError`. -/
theorem claim_C4_witness :
    envC4 "data/videos/episode_1.mp4" = some videoC4 ∧
      ((4 : ℚ) < 0 ∨ videoC4.duration < 4) ∧
      decode_video_frames_torchvision envC4 "data/videos/episode_1.mp4"
        [4] 1 "cpu" = Except.error DecodeError.seekError :=
  ⟨by decide, by norm_num [videoC4],
    claim_C4_first_out_of_bounds_seek_error envC4 "data/videos/episode_1.mp4"
      videoC4 4 [] 1 (by decide) (by norm_num [videoC4])⟩

/-- C5: the scan loop records every pulled frame (timestamp and buffer) and
stops exactly at the first frame whose timestamp reaches the last requested
timestamp, including that frame, and never earlier: either no frame reaches
`last_ts` and the whole remaining stream is recorded, or the stream splits
as `pre ++ f :: suf` with every frame of `pre` strictly before `last_ts`,
`f` the first frame with `last_ts ≤ f.pts`, and the loop records exactly
`pre ++ [f]`. -/
theorem claim_C5_scan_loop_stops_at_first_boundary (last_ts : ℚ) (frames : List Frame) :
    (scanLoop last_ts frames = frames ∧ ∀ f ∈ frames, f.pts < last_ts) ∨
    (∃ pre f suf, frames = pre ++ f :: suf ∧ (∀ g ∈ pre, g.pts < last_ts) ∧
      last_ts ≤ f.pts ∧ scanLoop last_ts frames = pre ++ [f]) := by
  induction frames with
  | nil => exact Or.inl ⟨rfl, by simp⟩
  | cons f rest ih =>
    by_cases h : last_ts ≤ f.pts
    · right
      exact ⟨[], f, rest, rfl, by simp, h, by rw [scanLoop, if_pos h]; rfl⟩
    · have hlt : f.pts < last_ts := lt_of_not_le h
      rcases ih with ⟨heq, hall⟩ | ⟨pre, g, suf, hfs, hpre, hge, heq⟩
      · left
        refine ⟨by rw [scanLoop, if_neg h, heq], ?_⟩
        intro x hx
        rcases List.mem_cons.mp hx with hx | hx
        · rw [hx]; exact hlt
        · exact hall x hx
      · right
        refine ⟨f :: pre, g, suf, by rw [hfs]; rfl, ?_, hge, ?_⟩
        · intro x hx
          rcases List.mem_cons.mp hx with hx | hx
          · rw [hx]; exact hlt
          · exact hpre x hx
        · rw [scanLoop, if_neg h, heq]; rfl

/-- C6: the selection of a frame for a query timestamp is a stable argmin:
`minArgmin` returns an index into the loaded timestamps achieving the
minimum L1 distance to the query, and every earlier loaded timestamp has a
strictly larger distance, so ties are broken by first occurrence in scan
order. -/
theorem claim_C6_stable_argmin (q : ℚ) (ts : List ℚ) (h : ts ≠ []) :
    ∃ d i, minArgmin q ts = some (d, i) ∧ i < ts.length ∧ d = |q - ts.getD i 0| ∧
      (∀ j < ts.length, d ≤ |q - ts.getD j 0|) ∧
      (∀ j < i, d < |q - ts.getD j 0|) :=
  minArgmin_spec q ts h

/-- Witness for C6: on loaded timestamps `[3, 1, 1]` with query `0`, the
minimum distance is achieved at indices 1 and 2 and the first one wins. -/
theorem claim_C6_witness :
    ([3, 1, 1] : List ℚ) ≠ [] ∧
      (∃ d i, minArgmin 0 [3, 1, 1] = some (d, i) ∧ i < ([3, 1, 1] : List ℚ).length ∧
        d = |0 - ([3, 1, 1] : List ℚ).getD i 0| ∧
        (∀ j < ([3, 1, 1] : List ℚ).length, d ≤ |0 - ([3, 1, 1] : List ℚ).getD j 0|) ∧
        (∀ j < i, d < |0 - ([3, 1, 1] : List ℚ).getD j 0|)) :=
  ⟨by decide, claim_C6_stable_argmin 0 [3, 1, 1] (by decide)⟩

/-- C7: normalization divides each 8-bit pixel by 255 as a 32-bit float
(modelled exactly over ℚ; the claimed values are exactly representable):
every valid 8-bit input yields an output in `[0, 1]`, pixel `0` maps exactly
to `0` and pixel `255` maps exactly to `1`. -/
theorem claim_C7_normalize_range :
    (∀ b : ℕ, b ≤ 255 → 0 ≤ normalizePixel b ∧ normalizePixel b ≤ 1) ∧
    (∀ data : List ℕ, (∀ b ∈ data, b ≤ 255) →
      ∀ x ∈ normalizeFrame data, 0 ≤ x ∧ x ≤ 1) ∧
    normalizePixel 0 = 0 ∧ normalizePixel 255 = 1 := by
  have hpix : ∀ b : ℕ, b ≤ 255 → 0 ≤ normalizePixel b ∧ normalizePixel b ≤ 1 := by
    intro b hb
    constructor
    · rw [normalizePixel]
      positivity
    · rw [normalizePixel, div_le_one (by norm_num)]
      exact_mod_cast hb
  refine ⟨hpix, ?_, by norm_num [normalizePixel], by norm_num [normalizePixel]⟩
  intro data hdata x hx
  obtain ⟨b, hb, rfl⟩ := List.mem_map.mp hx
  exact hpix b (hdata b hb)

/-- Witness for C7: the range bound applied to the mid pixel value 128. -/
theorem claim_C7_witness :
    0 ≤ normalizePixel 128 ∧ normalizePixel 128 ≤ 1 :=
  claim_C7_normalize_range.1 128 (by norm_num)

/-- C8: with `device = "cuda"`, `decode_video_frames_torchvision` fails with
the not-implemented error for every filesystem — in particular for one in
which no video can be opened at all, so the failure happens before any
stream is opened — and it never returns a decoded result (no CPU
fallback). -/
theorem claim_C8_cuda_not_implemented (env : String → Option Video)
    (path : String) (ts : List ℚ) (tol : ℚ) :
    decode_video_frames_torchvision env path ts tol "cuda" =
      Except.error (DecodeError.notImplemented "") :=
  decode_cuda env path ts tol

/-- C10: any device string other than `"cpu"` and `"cuda"` makes
`decode_video_frames_torchvision` fail with `ValueError(device)` carrying
the offending value, for every filesystem (hence before any stream is
opened). -/
theorem claim_C10_unknown_device_value_error (env : String → Option Video)
    (path : String) (ts : List ℚ) (tol : ℚ) (device : String)
    (h1 : device ≠ "cpu") (h2 : device ≠ "cuda") :
    decode_video_frames_torchvision env path ts tol device =
      Except.error (DecodeError.valueError device) :=
  decode_other_device env path ts tol device h1 h2

/-- Witness for C10: the device string `"mps"`. -/
theorem claim_C10_witness :
    ("mps" : String) ≠ "cpu" ∧ ("mps" : String) ≠ "cuda" ∧
      decode_video_frames_torchvision (fun _ => none) "a/b.mp4" [0] 1 "mps" =
        Except.error (DecodeError.valueError "mps") :=
  ⟨by decide, by decide,
    claim_C10_unknown_device_value_error (fun _ => none) "a/b.mp4" [0] 1 "mps"
      (by decide) (by decide)⟩

/-- C1 (code bug): the multi-path check of `load_from_videos` is inverted.
The source raises `NotImplementedError("All video paths are expected to be
the same for now.")` when `len(set(paths)) == 1`, i.e. exactly when all
paths ARE the same — contradicting its own error message — and for a batch
with two distinct paths it proceeds and silently decodes `paths[0]`.  Both
behaviours are evaluated here on two-element batches. -/
theorem claim_C1_same_path_batch_rejected_multi_path_accepted :
    load_from_videos envEx
        [("image", ItemVal.refs
          [⟨"videos/episode_0.mp4", 0⟩, ⟨"videos/episode_0.mp4", 1⟩])]
        ["image"] ["data", "videos"] 1 =
      Except.error (DecodeError.notImplemented
        "All video paths are expected to be the same for now.") ∧
    load_from_videos envEx
        [("image", ItemVal.refs
          [⟨"videos/episode_0.mp4", 0⟩, ⟨"videos/episode_1.mp4", 1⟩])]
        ["image"] ["data", "videos"] 1 =
      Except.ok [("image", ItemVal.tensors [[0], [1]])] := by
  have hp0 : pathJoin ["data"] "videos/episode_0.mp4" = "data/videos/episode_0.mp4" := by
    decide
  have hded1 : (List.dedup ["videos/episode_0.mp4", "videos/episode_0.mp4"]).length = 1 := by
    decide
  have hded2 : (List.dedup ["videos/episode_0.mp4", "videos/episode_1.mp4"]).length = 2 := by
    decide
  constructor
  · norm_num [load_from_videos, loadLoop, processKey, getVal, hded1]
  · norm_num [load_from_videos, loadLoop, processKey, getVal, setVal,
      decode_video_frames_torchvision, envEx, videoEx, seek, seekIndex, seekIndexAux,
      scanLoop, decodeScan, decodeSelect, violatingOf, rowMins, minArgminD, minArgmin,
      gather, normalizeFrame, normalizePixel, defaultFrame, abs_sub_ite, List.getLast,
      List.filter, hp0, hded2]

/-- Witness for C3: decoding timestamps `[0, 1]` of the example video with
tolerance 1 satisfies the amended all-or-nothing dichotomy. -/
theorem claim_C3_witness :
    envEx "data/videos/episode_0.mp4" = some videoEx ∧ videoEx.frames ≠ [] ∧
      (0 : ℚ) ≤ 0 ∧ (0 : ℚ) ≤ videoEx.duration ∧
      ((∃ out, decode_video_frames_torchvision envEx "data/videos/episode_0.mp4"
            (0 :: [1]) 1 "cpu" = Except.ok out ∧
          out.length = ((0 : ℚ) :: [1]).length ∧
          ∀ q ∈ (0 : ℚ) :: [1], ∃ t ∈ loadedTimestamps videoEx 0 [1],
            (∀ u ∈ loadedTimestamps videoEx 0 [1], |q - t| ≤ |q - u|) ∧ |q - t| < 1) ∨
        (decode_video_frames_torchvision envEx "data/videos/episode_0.mp4"
            (0 :: [1]) 1 "cpu" =
          Except.error (DecodeError.toleranceError
            (violatingOf (0 :: [1]) (loadedTimestamps videoEx 0 [1]) 1)) ∧
          violatingOf (0 :: [1]) (loadedTimestamps videoEx 0 [1]) 1 ≠ [] ∧
          ∀ d ∈ violatingOf (0 :: [1]) (loadedTimestamps videoEx 0 [1]) 1, ¬ d < 1)) :=
  ⟨by decide, by decide, le_refl 0, by norm_num [videoEx],
    claim_C3_all_or_nothing envEx "data/videos/episode_0.mp4" videoEx 0 [1] 1
      (by decide) (by decide) (le_refl 0) (by norm_num [videoEx])⟩

/-- C9: whenever `load_from_videos` succeeds, every processed key preserves
cardinality — a scalar frame reference is replaced by the single decoded
tensor (`frames[0]`, batch dimension dropped) and a list of frame
references is replaced by the decoded stack with exactly one tensor per
reference — and the stored relative path is resolved against
`videos_dir.dropLast`, the parent directory of `videos_dir`. -/
theorem claim_C9_cardinality_and_resolution (env : String → Option Video)
    (item : List (String × ItemVal)) (video_frame_keys : List String)
    (videos_dir : List String) (tol : ℚ) (item' : List (String × ItemVal))
    (key : String)
    (h : load_from_videos env item video_frame_keys videos_dir tol = Except.ok item')
    (hk : key ∈ video_frame_keys) :
    (∀ f, getVal item key = some (ItemVal.ref f) →
      ∃ out, decode_video_frames_torchvision env (pathJoin videos_dir.dropLast f.path)
          [f.timestamp] tol "cpu" = Except.ok out ∧
        out.length = 1 ∧ getVal item' key = some (ItemVal.tensor (out.headD []))) ∧
    (∀ fs, getVal item key = some (ItemVal.refs fs) →
      ∃ out, decode_video_frames_torchvision env
          (pathJoin videos_dir.dropLast ((fs.headD defaultFrameRef).path))
          (fs.map FrameRef.timestamp) tol "cpu" = Except.ok out ∧
        out.length = fs.length ∧ getVal item' key = some (ItemVal.tensors out)) := by
  rw [load_from_videos] at h
  exact loadLoop_ok_spec env videos_dir.dropLast tol video_frame_keys item item' key h hk

/-- Witness for C9: the two-key example item loaded under `envEx`. -/
theorem claim_C9_witness :
    load_from_videos envEx itemW ["obs", "cam"] ["data", "videos"] 1 =
        Except.ok itemW' ∧
      "cam" ∈ ["obs", "cam"] ∧
      ((∀ f, getVal itemW "cam" = some (ItemVal.ref f) →
        ∃ out, decode_video_frames_torchvision envEx
            (pathJoin (["data", "videos"] : List String).dropLast f.path)
            [f.timestamp] 1 "cpu" = Except.ok out ∧
          out.length = 1 ∧ getVal itemW' "cam" = some (ItemVal.tensor (out.headD []))) ∧
      (∀ fs, getVal itemW "cam" = some (ItemVal.refs fs) →
        ∃ out, decode_video_frames_torchvision envEx
            (pathJoin (["data", "videos"] : List String).dropLast
              ((fs.headD defaultFrameRef).path))
            (fs.map FrameRef.timestamp) 1 "cpu" = Except.ok out ∧
          out.length = fs.length ∧ getVal itemW' "cam" = some (ItemVal.tensors out))) := by
  have hp0 : pathJoin ["data"] "videos/episode_0.mp4" = "data/videos/episode_0.mp4" := by
    decide
  have h1 : "obs" ≠ "cam" := by decide
  have h2 : "cam" ≠ "obs" := by decide
  have hded : (List.dedup ["videos/episode_0.mp4", "videos/episode_1.mp4"]).length = 2 := by
    decide
  have hload : load_from_videos envEx itemW ["obs", "cam"] ["data", "videos"] 1 =
      Except.ok itemW' := by
    norm_num [load_from_videos, loadLoop, processKey, getVal, setVal, itemW, itemW',
      decode_video_frames_torchvision, envEx, videoEx, seek,
      seekIndex, seekIndexAux, scanLoop, decodeScan, decodeSelect, violatingOf, rowMins,
      minArgminD, minArgmin, gather, normalizeFrame, normalizePixel, defaultFrame,
      abs_sub_ite, List.getLast, List.filter, hp0, h1, h2, hded]
  exact ⟨hload, List.mem_cons_of_mem _ (List.mem_cons_self _ _),
    claim_C9_cardinality_and_resolution envEx itemW ["obs", "cam"] ["data", "videos"]
      1 itemW' "cam" hload (List.mem_cons_of_mem _ (List.mem_cons_self _ _))⟩

end VideoUtils
